import Mathlib

/-!
Verification of the snapshot-lifecycle and store-bootstrap layer
(internal-key codec, snapshot registry and quota eviction, bootstrap),
shallowly embedded from the Go sources.
-/

namespace Rocksdb

/-- `TypeDeletion` constant from types.go. Bytes and the `uint8` ValueType
are modelled as plain natural numbers (well-formed values are below 256). -/
def TypeDeletion : Nat := 0

/-- `TypeValue` constant from types.go. -/
def TypeValue : Nat := 1

/-- `TypeMerge` constant from types.go. -/
def TypeMerge : Nat := 2

/-- `IsValue` from types.go: `return vt <= TypeMerge`. -/
def isValue (vt : Nat) : Bool := decide (vt ≤ TypeMerge)

/-- Modelled from the spec: `rocksEndian` is declared outside the given
source excerpt; the spec describes the packed field as an 8-byte
big-endian-ordered value, so `putUint64` writes the 8 bytes of `v`
most-significant first (`binary.ByteOrder.PutUint64`). -/
def putUint64 (v : Nat) : List Nat :=
  [v / 2 ^ 56 % 256, v / 2 ^ 48 % 256, v / 2 ^ 40 % 256, v / 2 ^ 32 % 256,
   v / 2 ^ 24 % 256, v / 2 ^ 16 % 256, v / 2 ^ 8 % 256, v % 256]

/-- Modelled from the spec: `binary.ByteOrder.Uint64` over the big-endian
byte order, reading the given bytes most-significant first. -/
def getUint64 (bs : List Nat) : Nat :=
  bs.foldl (fun acc b => acc * 256 + b) 0

/-- `InternalKey` struct from types.go. `SequenceNumber` is a `uint64`. -/
structure InternalKey where
  userKey : List Nat
  sequenceNumber : Nat
  valueType : Nat
deriving Repr, DecidableEq

/-- `packSeqAndType` from types.go:
`ikey.SequenceNumber<<8 | uint64(ikey.ValueType)`, in `uint64` arithmetic
(the shift wraps modulo 2^64). -/
def InternalKey.packSeqAndType (ikey : InternalKey) : Nat :=
  ((ikey.sequenceNumber <<< 8) % 2 ^ 64) ||| ikey.valueType

/-- `Encode` from types.go: the user key followed by the 8-byte packed
sequence-and-type field. -/
def InternalKey.encode (ikey : InternalKey) : List Nat :=
  ikey.userKey ++ putUint64 ikey.packSeqAndType

/-- `Decode` from types.go (the source mutates the receiver; the model
returns the resulting value): split off the trailing 8 bytes, then
`unpackSeqAndType` assigns `ValueType(pack & 0xff)` and
`SequenceNumber = pack >> 8`. -/
def decodeInternalKey (encoded : List Nat) : InternalKey :=
  { userKey := encoded.take (encoded.length - 8)
  , valueType := getUint64 (encoded.drop (encoded.length - 8)) &&& 0xff
  , sequenceNumber := getUint64 (encoded.drop (encoded.length - 8)) >>> 8 }

/-- `Comparator` from types.go: a caller-supplied compare function on user
keys returning a Go `int`. -/
abbrev Comparator := List Nat → List Nat → Int

/-- `Comparator.CompareInternalKey` from types.go: compare the user-key
portions with the caller-supplied comparator; on a tie compare the trailing
8-byte numbers, larger first (result `-1`). -/
def compareInternalKey (c : Comparator) (key1 key2 : List Nat) : Int :=
  let k1 := key1.take (key1.length - 8)
  let k2 := key2.take (key2.length - 8)
  let cmp := c k1 k2
  if cmp = 0 then
    let num1 := getUint64 (key1.drop (key1.length - 8))
    let num2 := getUint64 (key2.drop (key2.length - 8))
    if num1 > num2 then -1
    else if num1 < num2 then 1
    else 0
  else cmp

/-- The sequence number carried by an encoded internal key: the high 56
bits of its trailing 8-byte packed field. -/
def seqOfEncoded (key : List Nat) : Nat :=
  getUint64 (key.drop (key.length - 8)) >>> 8

end Rocksdb


namespace Raftstore

/-- `SnapKey` from the snapshot manager source: (RegionID, Term, Index),
each a `uint64`, modelled as natural numbers. -/
structure SnapKey where
  regionID : Nat
  term : Nat
  index : Nat
deriving Repr, DecidableEq

/-- `SnapEntry` from the snapshot manager source: Generating(1), Sending(2),
Receiving(3), Applying(4). -/
inductive SnapEntry where
  | generating
  | sending
  | receiving
  | applying
deriving Repr, DecidableEq

/-- The registry field `registry map[SnapKey][]SnapEntry` of `SnapManager`,
modelled as an association list from keys to entry lists. -/
abbrev Registry := List (SnapKey × List SnapEntry)

/-- Go map lookup `registry[key]` with its presence bit: returns the entry
list of the first pair with the given key, if any. -/
def regFind : Registry → SnapKey → Option (List SnapEntry)
  | [], _ => none
  | (k, es) :: r, key => if k = key then some es else regFind r key

/-- Go map assignment `registry[key] = entries`: replaces the value of the
first pair with the given key, or appends a new pair. -/
def regSet : Registry → SnapKey → List SnapEntry → Registry
  | [], key, es => [(key, es)]
  | (k, es0) :: r, key, es =>
    if k = key then (key, es) :: r else (k, es0) :: regSet r key es

/-- Go `delete(registry, key)`: removes the first pair with the given key. -/
def regErase : Registry → SnapKey → Registry
  | [], _ => []
  | (k, es0) :: r, key => if k = key then r else (k, es0) :: regErase r key

/-- `SnapManager.Register`: if (key, entry) is already present it returns
without mutating; otherwise the entry is appended to the key's list. -/
def register (r : Registry) (key : SnapKey) (entry : SnapEntry) : Registry :=
  match regFind r key with
  | some entries =>
    if entry ∈ entries then r else regSet r key (entries ++ [entry])
  | none => regSet r key [entry]

/-- `SnapManager.Deregister`: removes the first occurrence of the entry from
the key's list if present; when the list becomes empty the key is deleted
from the registry; a stale deregister is a no-op. -/
def deregister (r : Registry) (key : SnapKey) (entry : SnapEntry) : Registry :=
  match regFind r key with
  | some entries =>
    if entry ∈ entries then
      if (entries.erase entry).length > 0 then
        regSet r key (entries.erase entry)
      else
        regErase r key
    else r
  | none => r

/-- `SnapManager.HasRegistered`: the key presence bit of the registry map. -/
def hasRegistered (r : Registry) (key : SnapKey) : Bool :=
  (regFind r key).isSome

/-- One registry operation: a Register or a Deregister call. -/
inductive RegOp where
  | reg (key : SnapKey) (entry : SnapEntry)
  | dereg (key : SnapKey) (entry : SnapEntry)

/-- Apply one registry operation. -/
def applyOp (r : Registry) : RegOp → Registry
  | .reg key entry => register r key entry
  | .dereg key entry => deregister r key entry

/-- The registry reached from the empty registry built by
`SnapManagerBuilder.Build` after a sequence of Register/Deregister calls. -/
def applyOps (ops : List RegOp) : Registry :=
  ops.foldl applyOp []

/-- Well-formedness of a registry: association-list keys are distinct, and
every stored entry list is duplicate-free and non-empty. -/
def RegWF (r : Registry) : Prop :=
  (r.map Prod.fst).Nodup ∧ ∀ p ∈ r, p.2.Nodup ∧ p.2 ≠ []

/-- `SnapKeyWithSending` used by `ListIdleSnap`: a parsed snapshot key plus
the sending-side flag derived from the filename role prefix. -/
structure SnapKeyWithSending where
  snapKey : SnapKey
  isSending : Bool
deriving Repr, DecidableEq

/-- One snapshot meta file in the base directory, as seen by `ListIdleSnap`
after filename parsing: its parsed key, the sending-side flag from the role
segment of the name, and, modelled from the spec, the data carried by the
external role-bound `Snapshot` handle for this file: the total size of the
snapshot (counted by the quota counter), the file modification time
returned by `Meta()`, and whether opening the handle
(`NewSnapForSending`) or fetching its metadata (`Meta()`) fails. -/
structure SnapDirFile where
  key : SnapKey
  isSending : Bool
  size : Nat
  modTime : Nat
  openErr : Option String
  metaErr : Option String
deriving Repr, DecidableEq

/-- The `SnapManager` state relevant to the registry and quota logic: the
registry map, the `snapSize` atomic counter (an `int64`), the configured
`MaxTotalSize` quota, and the snapshot meta files of the base directory.
The base path, router and rate limiter carry no state observable by the
verified operations and are omitted. -/
structure SnapManager where
  registry : Registry
  snapSize : Int
  maxTotalSize : Nat
  dir : List SnapDirFile
deriving Repr, DecidableEq

/-- `GetTotalSnapSize`: `uint64(atomic.LoadInt64(sm.snapSize))`, the two's
complement reinterpretation of the signed counter. -/
def getTotalSnapSize (sm : SnapManager) : Nat :=
  (sm.snapSize % (2 : Int) ^ 64).toNat

/-- Insert into a sorted list according to a boolean less function. -/
def insertSorted {α : Type} (less : α → α → Bool) (x : α) : List α → List α
  | [] => [x]
  | y :: ys => if less x y then x :: y :: ys else y :: insertSorted less x ys

/-- `sort.Slice` with a boolean less function, modelled as insertion sort:
the output is a permutation of the input that is sorted according to the
less function, which is the guarantee `sort.Slice` provides. -/
def sortSlice {α : Type} (less : α → α → Bool) : List α → List α
  | [] => []
  | x :: xs => insertSorted less x (sortSlice less xs)

/-- The less function of the `sort.Slice` call in `ListIdleSnap`: ascending
(RegionID, Term, Index); at a full tie the receiving-side entry (IsSending
false) sorts first. -/
def idleLess (a b : SnapKeyWithSending) : Bool :=
  if a.snapKey.regionID = b.snapKey.regionID then
    if a.snapKey.term = b.snapKey.term then
      if a.snapKey.index = b.snapKey.index then !a.isSending
      else decide (a.snapKey.index < b.snapKey.index)
    else decide (a.snapKey.term < b.snapKey.term)
  else decide (a.snapKey.regionID < b.snapKey.regionID)

/-- `ListIdleSnap`: scan the directory for snapshot meta files, skip keys
present in the registry, and sort the remaining keys with `idleLess`.
Directory reading and the `prefix_regionID_term_index` filename parsing are
abstracted: `sm.dir` holds exactly the successfully parsed meta files, so
the ReadDir and parse error paths do not arise in the model. -/
def listIdleSnap (sm : SnapManager) : List SnapKeyWithSending :=
  sortSlice idleLess
    (sm.dir.filterMap fun f =>
      if hasRegistered sm.registry f.key then none
      else some ⟨f.key, f.isSending⟩)

/-- `DeleteSnapshot(key, snapshot, checkEntry)`: under `checkEntry` it
refuses only when the registered entry list is non-empty; otherwise it
refuses whenever the key is present at all. On deletion (modelled from the
spec, since the role-bound `Snapshot.Delete` is external) the sending-side
files of the key are removed and the counter drops by the snapshot size
carried by the handle. -/
def deleteSnapshot (sm : SnapManager) (key : SnapKey) (snapSz : Nat)
    (checkEntry : Bool) : SnapManager × Bool :=
  if checkEntry then
    match regFind sm.registry key with
    | some es =>
      if es.length > 0 then (sm, false)
      else
        ({ sm with
            dir := sm.dir.filter fun f => !(decide (f.key = key) && f.isSending)
            snapSize := sm.snapSize - (snapSz : Int) }, true)
    | none =>
      ({ sm with
          dir := sm.dir.filter fun f => !(decide (f.key = key) && f.isSending)
          snapSize := sm.snapSize - (snapSz : Int) }, true)
  else
    match regFind sm.registry key with
    | some _ => (sm, false)
    | none =>
      ({ sm with
          dir := sm.dir.filter fun f => !(decide (f.key = key) && f.isSending)
          snapSize := sm.snapSize - (snapSz : Int) }, true)

/-- One eviction candidate collected by `deleteOldIdleSnaps`: the snapshot
key together with the size and modification time of its sending-side
snapshot (the `snapWithModTime` record of the source, with the handle
represented by the key and size). -/
structure Cand where
  key : SnapKey
  size : Nat
  modTime : Nat
deriving Repr, DecidableEq

/-- `NewSnapForSending` resolution in the model: the sending-side meta file
of the key in the directory. -/
def findSendingFile (dir : List SnapDirFile) (key : SnapKey) :
    Option SnapDirFile :=
  dir.find? fun f => decide (f.key = key) && f.isSending

/-- The candidate-collection loop of `deleteOldIdleSnaps`: walk the idle
list; skip non-sending entries; skip an entry whose sending handle fails to
open (`GetSnapshotForSending` error, or no sending file on disk); abort
with the error of the first failing `Meta()` call; otherwise record the
candidate. -/
def collectCands (dir : List SnapDirFile) :
    List SnapKeyWithSending → Except String (List Cand)
  | [] => .ok []
  | s :: rest =>
    if !s.isSending then collectCands dir rest
    else
      match findSendingFile dir s.snapKey with
      | none => collectCands dir rest
      | some f =>
        match f.openErr with
        | some _ => collectCands dir rest
        | none =>
          match f.metaErr with
          | some e => .error e
          | none =>
            match collectCands dir rest with
            | .error e => .error e
            | .ok cs => .ok (⟨s.snapKey, f.size, f.modTime⟩ :: cs)

/-- The less function of the `sort.Slice` call over candidates:
`snaps[i].modTime.Before(snaps[j].modTime)`. -/
def modLess (a b : Cand) : Bool :=
  decide (a.modTime < b.modTime)

/-- The deletion loop of `deleteOldIdleSnaps`: while total size exceeds
`MaxTotalSize`, fail with "too many snapshots" when no candidate remains,
otherwise delete the oldest remaining candidate (checkEntry false). -/
def evictLoop : List Cand → SnapManager → Except String SnapManager
  | [], sm =>
    if getTotalSnapSize sm ≤ sm.maxTotalSize then .ok sm
    else .error "too many snapshots"
  | c :: rest, sm =>
    if getTotalSnapSize sm ≤ sm.maxTotalSize then .ok sm
    else evictLoop rest (deleteSnapshot sm c.key c.size false).1

/-- `deleteOldIdleSnaps`: list idle snapshots, collect the sending-side
candidates with their modification times, sort them oldest first, and run
the deletion loop. -/
def deleteOldIdleSnaps (sm : SnapManager) : Except String SnapManager :=
  match collectCands sm.dir (listIdleSnap sm) with
  | .error e => .error e
  | .ok cands => evictLoop (sortSlice modLess cands) sm

/-- `GetSnapshotForBuilding`: trigger eviction when total size exceeds the
quota; the allocation of the building snapshot itself (`NewSnapForBuilding`)
is external and adds no observable state here. -/
def getSnapshotForBuilding (sm : SnapManager) : Except String SnapManager :=
  if sm.maxTotalSize < getTotalSnapSize sm then deleteOldIdleSnaps sm
  else .ok sm

/-- The state reached from a starting state by deleting the given
candidates in order with `DeleteSnapshot(key, snap, false)`, as the
eviction loop does. -/
def applyEvictions (sm : SnapManager) (cs : List Cand) : SnapManager :=
  cs.foldl (fun s c => (deleteSnapshot s c.key c.size false).1) sm

/-- The entry list stored for a key (empty when the key is absent). -/
def entriesOf (r : Registry) (key : SnapKey) : List SnapEntry :=
  (regFind r key).getD []

/-- The strict lexicographic order on snapshot keys:
(RegionID, Term, Index) ascending. -/
def keyLt (a b : SnapKey) : Prop :=
  a.regionID < b.regionID ∨
    (a.regionID = b.regionID ∧
      (a.term < b.term ∨ (a.term = b.term ∧ a.index < b.index)))

/-- The idle-list ordering stated by the spec: ascending by key, and at
equal keys a receiving-side entry never follows a sending-side one. -/
def IdleOrder (a b : SnapKeyWithSending) : Prop :=
  keyLt a.snapKey b.snapKey ∨
    (a.snapKey = b.snapKey ∧ (a.isSending = true → b.isSending = true))


/-- Example manager for the idle-listing claim: one registered key with
files on disk, plus two idle files. -/
def sampleManagerC4 : SnapManager :=
  { registry := [(⟨9, 9, 9⟩, [SnapEntry.sending])]
  , snapSize := 0
  , maxTotalSize := 100
  , dir :=
      [ ⟨⟨2, 1, 1⟩, true, 10, 5, none, none⟩
      , ⟨⟨1, 1, 1⟩, false, 10, 6, none, none⟩
      , ⟨⟨9, 9, 9⟩, true, 10, 7, none, none⟩ ] }

/-- Example manager over quota: usage 300, quota 250, three unregistered
100-byte sending snapshots of increasing age. -/
def exampleOverQuota : SnapManager :=
  { registry := []
  , snapSize := 300
  , maxTotalSize := 250
  , dir :=
      [ ⟨⟨1, 1, 1⟩, true, 100, 10, none, none⟩
      , ⟨⟨2, 1, 1⟩, true, 100, 20, none, none⟩
      , ⟨⟨3, 1, 1⟩, true, 100, 30, none, none⟩ ] }

/-- The state after the example eviction: exactly the single oldest
snapshot deleted, usage down to 200. -/
def exampleAfterEviction : SnapManager :=
  { registry := []
  , snapSize := 200
  , maxTotalSize := 250
  , dir :=
      [ ⟨⟨2, 1, 1⟩, true, 100, 20, none, none⟩
      , ⟨⟨3, 1, 1⟩, true, 100, 30, none, none⟩ ] }

/-- The candidates collected in the over-quota example. -/
def exampleCands : List Cand :=
  [⟨⟨1, 1, 1⟩, 100, 10⟩, ⟨⟨2, 1, 1⟩, 100, 20⟩, ⟨⟨3, 1, 1⟩, 100, 30⟩]

/-- Example manager over quota with no candidates at all. -/
def exampleExhausted : SnapManager :=
  { registry := [], snapSize := 300, maxTotalSize := 250, dir := [] }


/-- Example manager over quota whose oldest candidate fails to open as a
sending snapshot. -/
def exampleOpenErr : SnapManager :=
  { registry := []
  , snapSize := 300
  , maxTotalSize := 250
  , dir :=
      [ ⟨⟨1, 1, 1⟩, true, 100, 10, some "open failed", none⟩
      , ⟨⟨2, 1, 1⟩, true, 100, 20, none, none⟩ ] }

/-- Example manager whose only candidate fails the metadata fetch. -/
def exampleMetaErr : SnapManager :=
  { registry := []
  , snapSize := 300
  , maxTotalSize := 250
  , dir := [⟨⟨1, 1, 1⟩, true, 100, 10, none, some "stat failed"⟩] }


/-- Modelled from the spec: the kv engine state touched by `BootstrapStore`
(bootstrap.go itself is not among the given sources, only its test); the
engine is an association list from byte-string keys to byte-string values. -/
abbrev KvEngine := List (List Nat × List Nat)

/-- Modelled from the spec: engine point lookup. -/
def kvGet : KvEngine → List Nat → Option (List Nat)
  | [], _ => none
  | (k, v) :: e, key => if k = key then some v else kvGet e key

/-- Modelled from the spec: engine point write, replacing an existing value
for the key or appending a new pair. -/
def kvPut : KvEngine → List Nat → List Nat → KvEngine
  | [], key, v => [(key, v)]
  | (k, v0) :: e, key, v =>
    if k = key then (key, v) :: e else (k, v0) :: kvPut e key v

/-- Modelled from the spec: the singleton store identity key. -/
def storeIdentKey : List Nat := [1]

/-- Modelled from the spec: `BootstrapStore(engines, clusterID, storeID)`
fails with an already-bootstrapped error when the store identity key
already exists, writing nothing; otherwise it writes the store identity.
The result is the error, if any, paired with the resulting engine state. -/
def bootstrapStore (engines : KvEngine) (clusterID storeID : Nat) :
    Option String × KvEngine :=
  match kvGet engines storeIdentKey with
  | some _ => (some "store is already bootstrapped", engines)
  | none => (none, kvPut engines storeIdentKey [clusterID, storeID])

end Raftstore

namespace Rocksdb

theorem getUint64_putUint64 (v : Nat) (h : v < 2 ^ 64) :
    getUint64 (putUint64 v) = v := by
  simp only [putUint64, getUint64, List.foldl]
  omega

theorem packSeqAndType_eq (ikey : InternalKey)
    (hseq : ikey.sequenceNumber < 2 ^ 56) (hvt : ikey.valueType < 2 ^ 8) :
    ikey.packSeqAndType = ikey.sequenceNumber * 2 ^ 8 + ikey.valueType := by
  have hsh : ikey.sequenceNumber <<< 8 = ikey.sequenceNumber * 2 ^ 8 := by
    simp [Nat.shiftLeft_eq]
  have hlt : ikey.sequenceNumber * 2 ^ 8 < 2 ^ 64 := by omega
  have hor := Nat.mul_add_lt_is_or (a := ikey.sequenceNumber) (i := 8) hvt
  rw [InternalKey.packSeqAndType, hsh, Nat.mod_eq_of_lt hlt, ← Nat.mul_comm (2 ^ 8),
    ← hor, Nat.mul_comm (2 ^ 8)]

theorem packSeqAndType_lt (ikey : InternalKey) (hvt : ikey.valueType < 2 ^ 8) :
    ikey.packSeqAndType < 2 ^ 64 :=
  Nat.or_lt_two_pow (Nat.mod_lt _ (by norm_num)) (by omega)

theorem length_putUint64 (v : Nat) : (putUint64 v).length = 8 := by
  simp [putUint64]

theorem take_encode (ikey : InternalKey) :
    (ikey.encode.take (ikey.encode.length - 8)) = ikey.userKey := by
  have hlen : ikey.encode.length = ikey.userKey.length + 8 := by
    simp [InternalKey.encode, length_putUint64]
  rw [hlen, Nat.add_sub_cancel, InternalKey.encode, List.take_left]

theorem drop_encode (ikey : InternalKey) :
    (ikey.encode.drop (ikey.encode.length - 8)) = putUint64 ikey.packSeqAndType := by
  have hlen : ikey.encode.length = ikey.userKey.length + 8 := by
    simp [InternalKey.encode, length_putUint64]
  rw [hlen, Nat.add_sub_cancel, InternalKey.encode, List.drop_left]

theorem compareInternalKey_neg_of_seq_lt (c : Comparator) (key1 key2 : List Nat)
    (hu : c (key1.take (key1.length - 8)) (key2.take (key2.length - 8)) = 0)
    (hs : seqOfEncoded key2 < seqOfEncoded key1) :
    compareInternalKey c key1 key2 = -1 := by
  have hnum : getUint64 (key2.drop (key2.length - 8)) <
      getUint64 (key1.drop (key1.length - 8)) := by
    simp only [seqOfEncoded, Nat.shiftRight_eq_div_pow] at hs
    omega
  simp only [compareInternalKey]
  rw [hu]
  simp [hnum]

/-- C1: with user-key portions comparing equal under the caller-supplied
comparator, `CompareInternalKey` orders the key with the larger sequence
number first, returning a negative result (`-1`) when the first argument
carries the larger sequence number; in particular, on two encodings of the
same user key with sequence numbers 7 and 5, the sequence-7 key orders
before the sequence-5 key. -/
theorem compareInternalKey_seq_descending :
    (∀ (c : Comparator) (key1 key2 : List Nat),
      c (key1.take (key1.length - 8)) (key2.take (key2.length - 8)) = 0 →
      seqOfEncoded key2 < seqOfEncoded key1 →
      compareInternalKey c key1 key2 = -1)
  ∧ (∀ (c : Comparator) (u : List Nat) (t1 t2 : Nat),
      c u u = 0 → t1 < 2 ^ 8 → t2 < 2 ^ 8 →
      compareInternalKey c (InternalKey.encode ⟨u, 7, t1⟩)
        (InternalKey.encode ⟨u, 5, t2⟩) = -1) := by
  constructor
  · exact compareInternalKey_neg_of_seq_lt
  · intro c u t1 t2 hc h1 h2
    apply compareInternalKey_neg_of_seq_lt
    · rw [take_encode, take_encode]
      exact hc
    · simp only [seqOfEncoded]
      rw [drop_encode, drop_encode,
        getUint64_putUint64 _ (packSeqAndType_lt ⟨u, 5, t2⟩ h2),
        getUint64_putUint64 _ (packSeqAndType_lt ⟨u, 7, t1⟩ h1),
        packSeqAndType_eq ⟨u, 5, t2⟩ (by norm_num) h2,
        packSeqAndType_eq ⟨u, 7, t1⟩ (by norm_num) h1]
      simp only [Nat.shiftRight_eq_div_pow]
      omega

/-- C1 witness: the theorem applied at a concrete comparator and concrete
seven-versus-five encodings. -/
theorem compareInternalKey_seq_descending_witness :
    compareInternalKey (fun a b => if a = b then 0 else 1)
      (InternalKey.encode ⟨[9, 10], 7, 1⟩) (InternalKey.encode ⟨[9, 10], 5, 0⟩)
      = -1 :=
  compareInternalKey_seq_descending.2 (fun a b => if a = b then 0 else 1)
    [9, 10] 1 0 (by decide) (by decide) (by decide)

/-- C2: decoding the encoding of an internal key with sequence number below
2^56 and value type in {Deletion, Value, Merge} reproduces the original
triple exactly. -/
theorem decode_encode_roundtrip (u : List Nat) (seq : Nat) (vt : Nat)
    (hseq : seq < 2 ^ 56)
    (hvt : vt = TypeDeletion ∨ vt = TypeValue ∨ vt = TypeMerge) :
    decodeInternalKey (InternalKey.encode ⟨u, seq, vt⟩) = ⟨u, seq, vt⟩ := by
  have hvt8 : vt < 2 ^ 8 := by
    rcases hvt with h | h | h <;> subst h <;> decide
  have hpack : (InternalKey.mk u seq vt).packSeqAndType = seq * 2 ^ 8 + vt :=
    packSeqAndType_eq ⟨u, seq, vt⟩ hseq hvt8
  simp only [decodeInternalKey]
  rw [take_encode ⟨u, seq, vt⟩, drop_encode ⟨u, seq, vt⟩,
    getUint64_putUint64 _ (packSeqAndType_lt ⟨u, seq, vt⟩ hvt8), hpack]
  have hand : (seq * 2 ^ 8 + vt) &&& 0xff = vt := by
    have h255 : (0xff : Nat) = 2 ^ 8 - 1 := by norm_num
    rw [h255, Nat.and_pow_two_sub_one_eq_mod]
    omega
  have hshr : (seq * 2 ^ 8 + vt) >>> 8 = seq := by
    rw [Nat.shiftRight_eq_div_pow]
    omega
  rw [hand, hshr]

/-- C2 witness: the round trip evaluated at a concrete key, sequence number
and value type. -/
theorem decode_encode_roundtrip_witness :
    decodeInternalKey (InternalKey.encode ⟨[3, 200], 300, TypeMerge⟩)
      = ⟨[3, 200], 300, TypeMerge⟩ :=
  decode_encode_roundtrip [3, 200] 300 TypeMerge (by norm_num) (by simp)

/-- C9: `IsValue` returns true for every currently defined ValueType,
Deletion(0), Value(1) and Merge(2), including Deletion. -/
theorem isValue_all_defined_types :
    isValue TypeDeletion = true ∧ isValue TypeValue = true ∧
    isValue TypeMerge = true := by
  decide

end Rocksdb

namespace Raftstore

theorem regFind_mem {r : Registry} {key : SnapKey} {es : List SnapEntry}
    (h : regFind r key = some es) : (key, es) ∈ r := by
  induction r with
  | nil => simp [regFind] at h
  | cons p r ih =>
    obtain ⟨k, es0⟩ := p
    by_cases hk : k = key
    · subst hk
      simp [regFind] at h
      simp [h]
    · simp [regFind, hk] at h
      exact List.mem_cons_of_mem _ (ih h)

theorem regFind_none_iff {r : Registry} {key : SnapKey} :
    regFind r key = none ↔ key ∉ r.map Prod.fst := by
  induction r with
  | nil => simp [regFind]
  | cons p r ih =>
    obtain ⟨k, es0⟩ := p
    by_cases hk : k = key
    · subst hk
      simp [regFind]
    · simp only [regFind, if_neg hk, List.map_cons, List.mem_cons]
      rw [ih]
      constructor
      · intro h hmem
        rcases hmem with h1 | h1
        · exact hk h1.symm
        · exact h h1
      · intro h h1
        exact h (Or.inr h1)

theorem mem_regSet {r : Registry} {key : SnapKey} {es : List SnapEntry}
    {p : SnapKey × List SnapEntry} (h : p ∈ regSet r key es) :
    p = (key, es) ∨ p ∈ r := by
  induction r with
  | nil => simp [regSet] at h; simp [h]
  | cons q r ih =>
    obtain ⟨k, es0⟩ := q
    by_cases hk : k = key
    · subst hk
      simp [regSet] at h
      rcases h with h | h
      · exact Or.inl h
      · exact Or.inr (List.mem_cons_of_mem _ h)
    · simp [regSet, hk] at h
      rcases h with h | h
      · exact Or.inr (by simp [h])
      · rcases ih h with h | h
        · exact Or.inl h
        · exact Or.inr (List.mem_cons_of_mem _ h)

theorem keys_regSet_of_mem {r : Registry} {key : SnapKey} {es : List SnapEntry}
    (h : key ∈ r.map Prod.fst) :
    (regSet r key es).map Prod.fst = r.map Prod.fst := by
  induction r with
  | nil => simp at h
  | cons q r ih =>
    obtain ⟨k, es0⟩ := q
    simp only [List.map_cons, List.mem_cons] at h
    by_cases hk : k = key
    · subst hk
      simp [regSet]
    · have h2 : key ∈ r.map Prod.fst := by
        rcases h with h | h
        · exact absurd h.symm hk
        · exact h
      simp [regSet, hk, ih h2]

theorem keys_regSet_of_not_mem {r : Registry} {key : SnapKey}
    {es : List SnapEntry} (h : key ∉ r.map Prod.fst) :
    (regSet r key es).map Prod.fst = r.map Prod.fst ++ [key] := by
  induction r with
  | nil => simp [regSet]
  | cons q r ih =>
    obtain ⟨k, es0⟩ := q
    simp only [List.map_cons, List.mem_cons] at h
    push_neg at h
    have hk : k ≠ key := fun he => h.1 he.symm
    simp [regSet, hk, ih h.2]

theorem regErase_sublist (r : Registry) (key : SnapKey) :
    (regErase r key).Sublist r := by
  induction r with
  | nil => simp [regErase]
  | cons q r ih =>
    obtain ⟨k, es0⟩ := q
    by_cases hk : k = key
    · simp only [regErase, if_pos hk]
      exact List.sublist_cons_self _ _
    · simp only [regErase, if_neg hk]
      exact List.Sublist.cons₂ _ ih




theorem regFind_regSet_self (r : Registry) (key : SnapKey)
    (es : List SnapEntry) : regFind (regSet r key es) key = some es := by
  induction r with
  | nil => simp [regSet, regFind]
  | cons q r ih =>
    obtain ⟨k, es0⟩ := q
    by_cases hk : k = key
    · subst hk
      simp [regSet, regFind]
    · simp [regSet, regFind, hk, ih]

theorem regSet_of_regFind_none {r : Registry} {key : SnapKey}
    (es : List SnapEntry) (h : regFind r key = none) :
    regSet r key es = r ++ [(key, es)] := by
  induction r with
  | nil => simp [regSet]
  | cons q r ih =>
    obtain ⟨k, es0⟩ := q
    by_cases hk : k = key
    · rw [regFind, if_pos hk] at h
      cases h
    · rw [regFind, if_neg hk] at h
      simp [regSet, hk, ih h]

theorem regFind_append_singleton {r : Registry} {key : SnapKey}
    (es : List SnapEntry) (h : regFind r key = none) :
    regFind (r ++ [(key, es)]) key = some es := by
  induction r with
  | nil => simp [regFind]
  | cons q r ih =>
    obtain ⟨k, es0⟩ := q
    by_cases hk : k = key
    · rw [regFind, if_pos hk] at h
      cases h
    · rw [regFind, if_neg hk] at h
      simp only [List.cons_append, regFind, if_neg hk]
      exact ih h

theorem regErase_append_singleton {r : Registry} {key : SnapKey}
    (es : List SnapEntry) (h : regFind r key = none) :
    regErase (r ++ [(key, es)]) key = r := by
  induction r with
  | nil => simp [regErase]
  | cons q r ih =>
    obtain ⟨k, es0⟩ := q
    by_cases hk : k = key
    · rw [regFind, if_pos hk] at h
      cases h
    · rw [regFind, if_neg hk] at h
      simp only [List.cons_append, regErase, if_neg hk]
      exact congrArg (fun l => (k, es0) :: l) (ih h)

theorem regWF_nil : RegWF [] := by
  constructor
  · simp
  · intro p hp
    simp at hp

theorem regWF_register {r : Registry} (h : RegWF r) (key : SnapKey)
    (e : SnapEntry) : RegWF (register r key e) := by
  obtain ⟨hkeys, hmem⟩ := h
  cases hfind : regFind r key with
  | none =>
    have hreg : register r key e = r ++ [(key, [e])] := by
      simp [register, hfind, regSet_of_regFind_none _ hfind]
    rw [hreg]
    constructor
    · rw [List.map_append]
      refine List.Nodup.append hkeys (by simp) ?_
      intro x hx hx2
      simp at hx2
      subst hx2
      exact (regFind_none_iff.mp hfind) hx
    · intro p hp
      rcases List.mem_append.mp hp with hp | hp
      · exact hmem p hp
      · simp at hp
        rw [hp]
        exact ⟨by simp, by simp⟩
  | some es =>
    have hkey_mem : key ∈ r.map Prod.fst :=
      List.mem_map_of_mem Prod.fst (regFind_mem hfind)
    by_cases he : e ∈ es
    · have hreg : register r key e = r := by
        simp [register, hfind, he]
      rw [hreg]
      exact ⟨hkeys, hmem⟩
    · have hreg : register r key e = regSet r key (es ++ [e]) := by
        simp [register, hfind, he]
      rw [hreg]
      constructor
      · rw [keys_regSet_of_mem hkey_mem]
        exact hkeys
      · intro p hp
        rcases mem_regSet hp with hp | hp
        · rw [hp]
          have hes := hmem _ (regFind_mem hfind)
          refine ⟨List.Nodup.append hes.1 (by simp) ?_, by simp⟩
          intro x hx hx2
          simp at hx2
          subst hx2
          exact he hx
        · exact hmem p hp

theorem regWF_deregister {r : Registry} (h : RegWF r) (key : SnapKey)
    (e : SnapEntry) : RegWF (deregister r key e) := by
  obtain ⟨hkeys, hmem⟩ := h
  cases hfind : regFind r key with
  | none =>
    have hd : deregister r key e = r := by
      simp [deregister, hfind]
    rw [hd]
    exact ⟨hkeys, hmem⟩
  | some es =>
    by_cases he : e ∈ es
    · by_cases hlen : (es.erase e).length > 0
      · have hd : deregister r key e = regSet r key (es.erase e) := by
          simp only [deregister, hfind]
          rw [if_pos he, if_pos hlen]
        rw [hd]
        have hkey_mem : key ∈ r.map Prod.fst :=
          List.mem_map_of_mem Prod.fst (regFind_mem hfind)
        constructor
        · rw [keys_regSet_of_mem hkey_mem]
          exact hkeys
        · intro p hp
          rcases mem_regSet hp with hp | hp
          · rw [hp]
            refine ⟨List.Nodup.erase e (hmem _ (regFind_mem hfind)).1, ?_⟩
            intro hnil
            have hnil2 : es.erase e = [] := hnil
            rw [hnil2] at hlen
            simp at hlen
          · exact hmem p hp
      · have hd : deregister r key e = regErase r key := by
          simp only [deregister, hfind]
          rw [if_pos he, if_neg hlen]
        rw [hd]
        constructor
        · exact ((regErase_sublist r key).map Prod.fst).nodup hkeys
        · intro p hp
          exact hmem p ((regErase_sublist r key).subset hp)
    · have hd : deregister r key e = r := by
        simp only [deregister, hfind]
        rw [if_neg he]
      rw [hd]
      exact ⟨hkeys, hmem⟩

theorem regWF_foldl (ops : List RegOp) (r : Registry) (h : RegWF r) :
    RegWF (ops.foldl applyOp r) := by
  induction ops generalizing r with
  | nil => exact h
  | cons op ops ih =>
    simp only [List.foldl_cons]
    apply ih
    cases op with
    | reg key e => exact regWF_register h key e
    | dereg key e => exact regWF_deregister h key e

theorem regWF_applyOps (ops : List RegOp) : RegWF (applyOps ops) :=
  regWF_foldl ops [] regWF_nil

theorem entriesOf_applyOps_nodup (ops : List RegOp) (key : SnapKey) :
    (entriesOf (applyOps ops) key).Nodup := by
  have hwf := regWF_applyOps ops
  cases hfind : regFind (applyOps ops) key with
  | none => simp [entriesOf, hfind]
  | some es =>
    have hes := hwf.2 _ (regFind_mem hfind)
    simpa [entriesOf, hfind] using hes.1

theorem entriesOf_register_self (r : Registry) (key : SnapKey)
    (e : SnapEntry) :
    entriesOf (register r key e) key =
      if e ∈ entriesOf r key then entriesOf r key
      else entriesOf r key ++ [e] := by
  unfold register entriesOf
  cases hfind : regFind r key with
  | none => simp [regFind_regSet_self]
  | some es =>
    by_cases he : e ∈ es
    · simp [he, hfind]
    · simp [he, hfind, regFind_regSet_self]

theorem register_idem (r : Registry) (key : SnapKey) (e : SnapEntry) :
    register (register r key e) key e = register r key e := by
  cases hfind : regFind r key with
  | none =>
    have h1 : register r key e = regSet r key [e] := by
      simp [register, hfind]
    rw [h1]
    unfold register
    rw [regFind_regSet_self]
    simp
  | some es =>
    by_cases he : e ∈ es
    · have h1 : register r key e = r := by
        simp [register, hfind, he]
      rw [h1, h1]
    · have h1 : register r key e = regSet r key (es ++ [e]) := by
        simp [register, hfind, he]
      rw [h1]
      unfold register
      rw [regFind_regSet_self]
      simp


/-- C5 counterexample: with the key already registered with a different
entry (Sending), Register(k, Generating) followed by
Deregister(k, Generating) leaves HasRegistered(k) true, contradicting the
claim that this holds for every registry state. -/
theorem register_deregister_other_entry_counterexample :
    hasRegistered
      (deregister
        (register [(⟨1, 1, 1⟩, [SnapEntry.sending])] ⟨1, 1, 1⟩
          SnapEntry.generating)
        ⟨1, 1, 1⟩ SnapEntry.generating)
      ⟨1, 1, 1⟩ = true := by
  decide

/-- C5 (amended): for a key with no current registration, Register(k, e)
followed by Deregister(k, e) leaves HasRegistered(k) false. -/
theorem register_then_deregister_unregistered (r : Registry) (key : SnapKey)
    (e : SnapEntry) (h : regFind r key = none) :
    hasRegistered (deregister (register r key e) key e) key = false := by
  have h1 : register r key e = r ++ [(key, [e])] := by
    simp [register, h, regSet_of_regFind_none _ h]
  rw [h1]
  have h2 : regFind (r ++ [(key, [e])]) key = some [e] :=
    regFind_append_singleton _ h
  have h3 : deregister (r ++ [(key, [e])]) key e =
      regErase (r ++ [(key, [e])]) key := by
    simp only [deregister, h2]
    rw [if_pos (List.mem_singleton_self e)]
    simp
  rw [h3, regErase_append_singleton _ h]
  simp [hasRegistered, h]

/-- C5 witness: the amended theorem applied at the empty registry. -/
theorem register_then_deregister_unregistered_witness :
    hasRegistered
      (deregister (register [] ⟨1, 2, 3⟩ SnapEntry.receiving) ⟨1, 2, 3⟩
        SnapEntry.receiving)
      ⟨1, 2, 3⟩ = false :=
  register_then_deregister_unregistered [] ⟨1, 2, 3⟩ SnapEntry.receiving rfl

/-- C6: in every registry state reachable from the empty registry, entry
lists are duplicate-free; registering the same (key, entry) twice changes
nothing on the second call, and leaves exactly one stored entry for it. -/
theorem registry_entries_nodup_and_register_idem :
    (∀ (ops : List RegOp) (key : SnapKey),
      (entriesOf (applyOps ops) key).Nodup)
  ∧ (∀ (r : Registry) (key : SnapKey) (e : SnapEntry),
      register (register r key e) key e = register r key e)
  ∧ (∀ (ops : List RegOp) (key : SnapKey) (e : SnapEntry),
      (entriesOf (register (register (applyOps ops) key e) key e) key).count e
        = 1) := by
  refine ⟨entriesOf_applyOps_nodup, register_idem, ?_⟩
  intro ops key e
  rw [register_idem, entriesOf_register_self]
  have hnodup := entriesOf_applyOps_nodup ops key
  by_cases he : e ∈ entriesOf (applyOps ops) key
  · rw [if_pos he]
    exact List.count_eq_one_of_mem hnodup he
  · rw [if_neg he]
    rw [List.count_append]
    rw [List.count_eq_zero_of_not_mem he]
    simp


/-- C10: in every reachable registry state no key maps to an empty entry
list; HasRegistered holds exactly when the key has at least one entry; and
DeleteSnapshot behaves identically under checkEntry true and false. -/
theorem reachable_no_empty_entries_deleteSnapshot_agree :
    (∀ (ops : List RegOp) (key : SnapKey),
      regFind (applyOps ops) key = none ∨
        ∃ es, regFind (applyOps ops) key = some es ∧ es ≠ [])
  ∧ (∀ (ops : List RegOp) (key : SnapKey),
      hasRegistered (applyOps ops) key = true ↔
        entriesOf (applyOps ops) key ≠ [])
  ∧ (∀ (ops : List RegOp) (snapSize : Int) (maxTotalSize : Nat)
      (dir : List SnapDirFile) (key : SnapKey) (snapSz : Nat),
      deleteSnapshot ⟨applyOps ops, snapSize, maxTotalSize, dir⟩ key snapSz
          true
        = deleteSnapshot ⟨applyOps ops, snapSize, maxTotalSize, dir⟩ key
            snapSz false) := by
  refine ⟨?_, ?_, ?_⟩
  · intro ops key
    cases hfind : regFind (applyOps ops) key with
    | none => exact Or.inl rfl
    | some es =>
      refine Or.inr ⟨es, rfl, ?_⟩
      exact ((regWF_applyOps ops).2 _ (regFind_mem hfind)).2
  · intro ops key
    cases hfind : regFind (applyOps ops) key with
    | none => simp [hasRegistered, entriesOf, hfind]
    | some es =>
      have hne : es ≠ [] := ((regWF_applyOps ops).2 _ (regFind_mem hfind)).2
      simp [hasRegistered, entriesOf, hfind, hne]
  · intro ops snapSize maxTotalSize dir key snapSz
    cases hfind : regFind (applyOps ops) key with
    | none => simp [deleteSnapshot, hfind]
    | some es =>
      have hne : es ≠ [] := ((regWF_applyOps ops).2 _ (regFind_mem hfind)).2
      have hlen : es.length > 0 := List.length_pos.mpr hne
      simp [deleteSnapshot, hfind, hlen]


theorem mem_insertSorted {α : Type} (less : α → α → Bool) (x y : α)
    (l : List α) : y ∈ insertSorted less x l ↔ y = x ∨ y ∈ l := by
  induction l with
  | nil => simp [insertSorted]
  | cons z zs ih =>
    by_cases h : less x z = true
    · rw [insertSorted, if_pos h]
      simp [List.mem_cons]
    · rw [insertSorted, if_neg h]
      simp only [List.mem_cons, ih]
      tauto

theorem mem_sortSlice {α : Type} (less : α → α → Bool) (y : α)
    (l : List α) : y ∈ sortSlice less l ↔ y ∈ l := by
  induction l with
  | nil => simp [sortSlice]
  | cons z zs ih =>
    rw [sortSlice, mem_insertSorted]
    simp [ih]

theorem pairwise_insertSorted {α : Type} (less : α → α → Bool)
    (R : α → α → Prop)
    (h1 : ∀ a b, less a b = true → R a b)
    (h2 : ∀ a b, less a b = false → R b a)
    (htrans : ∀ a b c, R a b → R b c → R a c)
    (x : α) (l : List α) (hl : l.Pairwise R) :
    (insertSorted less x l).Pairwise R := by
  induction l with
  | nil => simp [insertSorted]
  | cons y ys ih =>
    rw [List.pairwise_cons] at hl
    obtain ⟨hy, hys⟩ := hl
    by_cases hx : less x y = true
    · rw [insertSorted, if_pos hx, List.pairwise_cons]
      constructor
      · intro z hz
        rcases List.mem_cons.mp hz with hz | hz
        · rw [hz]
          exact h1 _ _ hx
        · exact htrans _ _ _ (h1 _ _ hx) (hy z hz)
      · rw [List.pairwise_cons]
        exact ⟨hy, hys⟩
    · have hx2 : less x y = false := by simpa using hx
      rw [insertSorted, if_neg hx, List.pairwise_cons]
      constructor
      · intro z hz
        rcases (mem_insertSorted less x z ys).mp hz with hz | hz
        · rw [hz]
          exact h2 _ _ hx2
        · exact hy z hz
      · exact ih hys

theorem pairwise_sortSlice {α : Type} (less : α → α → Bool)
    (R : α → α → Prop)
    (h1 : ∀ a b, less a b = true → R a b)
    (h2 : ∀ a b, less a b = false → R b a)
    (htrans : ∀ a b c, R a b → R b c → R a c)
    (l : List α) : (sortSlice less l).Pairwise R := by
  induction l with
  | nil => simp [sortSlice]
  | cons x xs ih =>
    rw [sortSlice]
    exact pairwise_insertSorted less R h1 h2 htrans x _ ih

theorem SnapKey.eq_of_fields {k1 k2 : SnapKey}
    (h1 : k1.regionID = k2.regionID) (h2 : k1.term = k2.term)
    (h3 : k1.index = k2.index) : k1 = k2 := by
  cases k1
  cases k2
  simp_all

theorem keyLt_trans {a b c : SnapKey} (h1 : keyLt a b) (h2 : keyLt b c) :
    keyLt a c := by
  unfold keyLt at *
  omega

theorem idleLess_true_imp (a b : SnapKeyWithSending)
    (h : idleLess a b = true) : IdleOrder a b := by
  unfold IdleOrder keyLt
  unfold idleLess at h
  split_ifs at h with h1 h2 h3
  · have ha : a.isSending = false := by simpa using h
    refine Or.inr ⟨SnapKey.eq_of_fields h1 h2 h3, ?_⟩
    intro hs
    rw [hs] at ha
    cases ha
  · have hlt : a.snapKey.index < b.snapKey.index := by simpa using h
    exact Or.inl (by omega)
  · have hlt : a.snapKey.term < b.snapKey.term := by simpa using h
    exact Or.inl (by omega)
  · have hlt : a.snapKey.regionID < b.snapKey.regionID := by simpa using h
    exact Or.inl (by omega)

theorem idleLess_false_imp (a b : SnapKeyWithSending)
    (h : idleLess a b = false) : IdleOrder b a := by
  unfold IdleOrder keyLt
  unfold idleLess at h
  split_ifs at h with h1 h2 h3
  · have ha : a.isSending = true := by simpa using h
    exact Or.inr ⟨(SnapKey.eq_of_fields h1 h2 h3).symm, fun _ => ha⟩
  · have hge : ¬a.snapKey.index < b.snapKey.index := by simpa using h
    exact Or.inl (by omega)
  · have hge : ¬a.snapKey.term < b.snapKey.term := by simpa using h
    exact Or.inl (by omega)
  · have hge : ¬a.snapKey.regionID < b.snapKey.regionID := by simpa using h
    exact Or.inl (by omega)

theorem idleOrder_trans (a b c : SnapKeyWithSending)
    (h1 : IdleOrder a b) (h2 : IdleOrder b c) : IdleOrder a c := by
  unfold IdleOrder at *
  rcases h1 with h1 | ⟨h1e, h1s⟩
  · rcases h2 with h2 | ⟨h2e, h2s⟩
    · exact Or.inl (keyLt_trans h1 h2)
    · exact Or.inl (h2e ▸ h1)
  · rcases h2 with h2 | ⟨h2e, h2s⟩
    · refine Or.inl ?_
      rw [h1e]
      exact h2
    · exact Or.inr ⟨h1e.trans h2e, fun hs => h2s (h1s hs)⟩

theorem hasRegistered_false_iff {r : Registry} {key : SnapKey} :
    hasRegistered r key = false ↔ regFind r key = none := by
  unfold hasRegistered
  cases h : regFind r key <;> simp

theorem listIdleSnap_unregistered (sm : SnapManager) :
    ∀ x ∈ listIdleSnap sm, regFind sm.registry x.snapKey = none := by
  intro x hx
  unfold listIdleSnap at hx
  rw [mem_sortSlice] at hx
  rcases List.mem_filterMap.mp hx with ⟨f, hf, hxf⟩
  by_cases hreg : hasRegistered sm.registry f.key
  · simp [hreg] at hxf
  · rw [if_neg hreg] at hxf
    cases hxf
    exact hasRegistered_false_iff.mp (Bool.not_eq_true _ ▸ hreg)


/-- C4: ListIdleSnap never returns a key present in the registry, and its
result is sorted ascending by (RegionID, Term, Index) with a receiving-side
entry placed before a sending-side one at equal keys. -/
theorem listIdleSnap_skips_registered_and_sorted (sm : SnapManager) :
    (∀ x ∈ listIdleSnap sm, regFind sm.registry x.snapKey = none)
  ∧ (listIdleSnap sm).Pairwise IdleOrder := by
  refine ⟨listIdleSnap_unregistered sm, ?_⟩
  unfold listIdleSnap
  exact pairwise_sortSlice idleLess IdleOrder idleLess_true_imp
    idleLess_false_imp idleOrder_trans _

/-- C4 witness: the theorem applied at a concrete manager whose directory
holds both registered and idle snapshot files. -/
theorem listIdleSnap_skips_registered_and_sorted_witness :
    regFind sampleManagerC4.registry
        (⟨⟨1, 1, 1⟩, false⟩ : SnapKeyWithSending).snapKey = none
  ∧ (listIdleSnap sampleManagerC4).Pairwise IdleOrder :=
  ⟨(listIdleSnap_skips_registered_and_sorted sampleManagerC4).1
      ⟨⟨1, 1, 1⟩, false⟩ (by decide),
    (listIdleSnap_skips_registered_and_sorted sampleManagerC4).2⟩

theorem deleteSnapshot_preserves (sm : SnapManager) (key : SnapKey)
    (snapSz : Nat) (b : Bool) :
    ((deleteSnapshot sm key snapSz b).1).registry = sm.registry ∧
    ((deleteSnapshot sm key snapSz b).1).maxTotalSize = sm.maxTotalSize := by
  cases b with
  | false =>
    cases hfind : regFind sm.registry key <;>
      simp [deleteSnapshot, hfind]
  | true =>
    cases hfind : regFind sm.registry key with
    | none => simp [deleteSnapshot, hfind]
    | some es =>
      by_cases hlen : es.length > 0 <;>
        simp [deleteSnapshot, hfind, hlen]

theorem applyEvictions_cons (sm : SnapManager) (c : Cand) (cs : List Cand) :
    applyEvictions sm (c :: cs) =
      applyEvictions (deleteSnapshot sm c.key c.size false).1 cs := rfl

theorem applyEvictions_preserves (cs : List Cand) :
    ∀ sm : SnapManager,
      (applyEvictions sm cs).registry = sm.registry ∧
      (applyEvictions sm cs).maxTotalSize = sm.maxTotalSize := by
  induction cs with
  | nil => intro sm; exact ⟨rfl, rfl⟩
  | cons c cs ih =>
    intro sm
    rw [applyEvictions_cons]
    constructor
    · exact ((ih _).1).trans (deleteSnapshot_preserves sm c.key c.size false).1
    · exact ((ih _).2).trans (deleteSnapshot_preserves sm c.key c.size false).2

theorem evictLoop_ok (cands : List Cand) :
    ∀ (sm sm' : SnapManager), evictLoop cands sm = .ok sm' →
      ∃ m, m ≤ cands.length ∧
        sm' = applyEvictions sm (cands.take m) ∧
        getTotalSnapSize sm' ≤ sm.maxTotalSize ∧
        ∀ i, i < m →
          sm.maxTotalSize < getTotalSnapSize (applyEvictions sm (cands.take i)) := by
  induction cands with
  | nil =>
    intro sm sm' h
    rw [evictLoop] at h
    by_cases hle : getTotalSnapSize sm ≤ sm.maxTotalSize
    · rw [if_pos hle] at h
      cases h
      exact ⟨0, by simp, rfl, hle, by omega⟩
    · rw [if_neg hle] at h
      cases h
  | cons c rest ih =>
    intro sm sm' h
    rw [evictLoop] at h
    by_cases hle : getTotalSnapSize sm ≤ sm.maxTotalSize
    · rw [if_pos hle] at h
      cases h
      exact ⟨0, by simp, rfl, hle, by omega⟩
    · rw [if_neg hle] at h
      obtain ⟨m, hm, heq, hle2, hgt⟩ := ih _ _ h
      have hmax : ((deleteSnapshot sm c.key c.size false).1).maxTotalSize
          = sm.maxTotalSize := (deleteSnapshot_preserves sm c.key c.size false).2
      refine ⟨m + 1, by simpa using hm, ?_, ?_, ?_⟩
      · rw [List.take_succ_cons, applyEvictions_cons]
        exact heq
      · rw [← hmax]
        exact hle2
      · intro i hi
        cases i with
        | zero =>
          simp only [List.take_zero]
          have : applyEvictions sm [] = sm := rfl
          rw [this]
          omega
        | succ j =>
          have hj : j < m := by omega
          have hg := hgt j hj
          rw [List.take_succ_cons, applyEvictions_cons]
          rw [← hmax]
          exact hg

theorem evictLoop_error (cands : List Cand) :
    ∀ (sm : SnapManager) (e : String), evictLoop cands sm = .error e →
      e = "too many snapshots" ∧
      sm.maxTotalSize < getTotalSnapSize (applyEvictions sm cands) := by
  induction cands with
  | nil =>
    intro sm e h
    rw [evictLoop] at h
    by_cases hle : getTotalSnapSize sm ≤ sm.maxTotalSize
    · rw [if_pos hle] at h
      cases h
    · rw [if_neg hle] at h
      cases h
      constructor
      · rfl
      · have : applyEvictions sm [] = sm := rfl
        rw [this]
        omega
  | cons c rest ih =>
    intro sm e h
    rw [evictLoop] at h
    by_cases hle : getTotalSnapSize sm ≤ sm.maxTotalSize
    · rw [if_pos hle] at h
      cases h
    · rw [if_neg hle] at h
      obtain ⟨he, hlt⟩ := ih _ _ h
      have hmax : ((deleteSnapshot sm c.key c.size false).1).maxTotalSize
          = sm.maxTotalSize := (deleteSnapshot_preserves sm c.key c.size false).2
      refine ⟨he, ?_⟩
      rw [applyEvictions_cons, ← hmax]
      exact hlt

theorem collectCands_mem (dir : List SnapDirFile) :
    ∀ (idle : List SnapKeyWithSending) (cands : List Cand),
      collectCands dir idle = .ok cands →
      ∀ c ∈ cands, ∃ f ∈ dir, f.isSending = true ∧ f.key = c.key ∧
        f.size = c.size ∧ f.modTime = c.modTime ∧
        ∃ x ∈ idle, x.isSending = true ∧ x.snapKey = c.key := by
  intro idle
  induction idle with
  | nil =>
    intro cands h c hc
    rw [collectCands] at h
    cases h
    cases hc
  | cons x rest ih =>
    intro cands h c hc
    rw [collectCands] at h
    by_cases hx : (!x.isSending) = true
    · rw [if_pos hx] at h
      obtain ⟨f, hfdir, hrest⟩ := ih cands h c hc
      exact ⟨f, hfdir, hrest.1, hrest.2.1, hrest.2.2.1, hrest.2.2.2.1,
        let ⟨y, hy, hys⟩ := hrest.2.2.2.2
        ⟨y, List.mem_cons_of_mem _ hy, hys⟩⟩
    · rw [if_neg hx] at h
      have hxs : x.isSending = true := by simpa using hx
      cases hfind : findSendingFile dir x.snapKey with
      | none =>
        simp only [hfind] at h
        obtain ⟨f, hfdir, hrest⟩ := ih cands h c hc
        exact ⟨f, hfdir, hrest.1, hrest.2.1, hrest.2.2.1, hrest.2.2.2.1,
          let ⟨y, hy, hys⟩ := hrest.2.2.2.2
          ⟨y, List.mem_cons_of_mem _ hy, hys⟩⟩
      | some f =>
        simp only [hfind] at h
        cases ho : f.openErr with
        | some e1 =>
          simp only [ho] at h
          obtain ⟨g, hgdir, hrest⟩ := ih cands h c hc
          exact ⟨g, hgdir, hrest.1, hrest.2.1, hrest.2.2.1, hrest.2.2.2.1,
            let ⟨y, hy, hys⟩ := hrest.2.2.2.2
            ⟨y, List.mem_cons_of_mem _ hy, hys⟩⟩
        | none =>
          simp only [ho] at h
          cases hm : f.metaErr with
          | some e1 =>
            simp only [hm] at h
            cases h
          | none =>
            simp only [hm] at h
            cases hrest : collectCands dir rest with
            | error e1 =>
              simp only [hrest] at h
              cases h
            | ok cs =>
              simp only [hrest] at h
              cases h
              have hfp := List.find?_some hfind
              have hfmem := List.mem_of_find?_eq_some hfind
              simp only [Bool.and_eq_true, decide_eq_true_eq] at hfp
              rcases List.mem_cons.mp hc with hc | hc
              · subst hc
                exact ⟨f, hfmem, hfp.2, hfp.1, rfl, rfl,
                  ⟨x, List.mem_cons_self _ _, hxs, rfl⟩⟩
              · obtain ⟨g, hgdir, hrest2⟩ := ih cs hrest c hc
                exact ⟨g, hgdir, hrest2.1, hrest2.2.1, hrest2.2.2.1,
                  hrest2.2.2.2.1,
                  let ⟨y, hy, hys⟩ := hrest2.2.2.2.2
                  ⟨y, List.mem_cons_of_mem _ hy, hys⟩⟩


/-- C3: eviction triggered when over quota deletes only unregistered
sending-side snapshots, as a minimal oldest-first prefix of the
modification-time-sorted candidates, stopping as soon as total size is at
or under the quota; it fails with "too many snapshots" exactly when the
candidates are exhausted while still over quota; and in the concrete
three-snapshot example only the single oldest snapshot is deleted. -/
theorem deleteOldIdleSnaps_spec :
    (∀ (sm sm' : SnapManager) (cands : List Cand),
      collectCands sm.dir (listIdleSnap sm) = .ok cands →
      deleteOldIdleSnaps sm = .ok sm' →
      sm'.registry = sm.registry ∧
      (sortSlice modLess cands).Pairwise (fun a b => a.modTime ≤ b.modTime) ∧
      (∀ c ∈ sortSlice modLess cands,
        regFind sm.registry c.key = none ∧
        ∃ f ∈ sm.dir, f.isSending = true ∧ f.key = c.key ∧
          f.size = c.size ∧ f.modTime = c.modTime) ∧
      ∃ m, m ≤ (sortSlice modLess cands).length ∧
        sm' = applyEvictions sm ((sortSlice modLess cands).take m) ∧
        getTotalSnapSize sm' ≤ sm.maxTotalSize ∧
        ∀ i, i < m →
          sm.maxTotalSize <
            getTotalSnapSize
              (applyEvictions sm ((sortSlice modLess cands).take i)))
  ∧ (∀ (sm : SnapManager) (e : String) (cands : List Cand),
      collectCands sm.dir (listIdleSnap sm) = .ok cands →
      deleteOldIdleSnaps sm = .error e →
      e = "too many snapshots" ∧
      sm.maxTotalSize <
        getTotalSnapSize (applyEvictions sm (sortSlice modLess cands)))
  ∧ getSnapshotForBuilding exampleOverQuota = .ok exampleAfterEviction := by
  refine ⟨?_, ?_, by rfl⟩
  · intro sm sm' cands hcol hdel
    simp only [deleteOldIdleSnaps, hcol] at hdel
    refine ⟨?_, ?_, ?_, ?_⟩
    · obtain ⟨m, hm, heq, hle, hgt⟩ := evictLoop_ok _ _ _ hdel
      rw [heq]
      exact (applyEvictions_preserves _ _).1
    · exact pairwise_sortSlice modLess (fun a b => a.modTime ≤ b.modTime)
        (fun a b h => Nat.le_of_lt (by simpa [modLess] using h))
        (fun a b h => Nat.le_of_not_lt (by simpa [modLess] using h))
        (fun a b c h1 h2 => Nat.le_trans h1 h2) cands
    · intro c hc
      rw [mem_sortSlice] at hc
      obtain ⟨f, hfdir, hfsend, hfkey, hfsize, hfmod, x, hxidle, hxsend, hxkey⟩ :=
        collectCands_mem sm.dir (listIdleSnap sm) cands hcol c hc
      refine ⟨?_, f, hfdir, hfsend, hfkey, hfsize, hfmod⟩
      rw [← hxkey]
      exact listIdleSnap_unregistered sm x hxidle
    · exact evictLoop_ok _ _ _ hdel
  · intro sm e cands hcol hdel
    simp only [deleteOldIdleSnaps, hcol] at hdel
    exact evictLoop_error _ _ _ hdel

/-- C3 witness: the success conjunct applied at the concrete over-quota
manager and the failure conjunct applied at a manager with no eviction
candidates. -/
theorem deleteOldIdleSnaps_spec_witness :
    exampleAfterEviction.registry = exampleOverQuota.registry
  ∧ (∃ m, m ≤ (sortSlice modLess exampleCands).length ∧
      exampleAfterEviction =
        applyEvictions exampleOverQuota
          ((sortSlice modLess exampleCands).take m) ∧
      getTotalSnapSize exampleAfterEviction ≤ exampleOverQuota.maxTotalSize ∧
      ∀ i, i < m →
        exampleOverQuota.maxTotalSize <
          getTotalSnapSize
            (applyEvictions exampleOverQuota
              ((sortSlice modLess exampleCands).take i)))
  ∧ "too many snapshots" = "too many snapshots"
  ∧ exampleExhausted.maxTotalSize <
      getTotalSnapSize (applyEvictions exampleExhausted (sortSlice modLess [])) := by
  have h1 := deleteOldIdleSnaps_spec.1 exampleOverQuota exampleAfterEviction
    exampleCands rfl rfl
  have h2 := deleteOldIdleSnaps_spec.2.1 exampleExhausted "too many snapshots"
    [] rfl rfl
  exact ⟨h1.1, h1.2.2.2, h2.1, h2.2⟩


/-- C8 counterexample: with the oldest candidate failing to open
(`GetSnapshotForSending` error), the eviction pass does not abort with that
error; it skips the failing item, continues, and succeeds after deleting
the other candidate. -/
theorem evict_open_failure_not_abort_counterexample :
    deleteOldIdleSnaps exampleOpenErr =
      .ok { registry := []
          , snapSize := 200
          , maxTotalSize := 250
          , dir := [⟨⟨1, 1, 1⟩, true, 100, 10, some "open failed", none⟩] } := by
  rfl

/-- C8 (amended): a failure opening a candidate sending handle causes that
candidate to be skipped, the pass continuing with the remaining candidates;
only a failure fetching file metadata aborts the pass immediately with that
error, which then propagates out of deleteOldIdleSnaps. -/
theorem evict_item_failure_behavior :
    (∀ (dir : List SnapDirFile) (l1 l2 : List SnapKeyWithSending)
      (x : SnapKeyWithSending) (f : SnapDirFile) (err : String),
      x.isSending = true → findSendingFile dir x.snapKey = some f →
      f.openErr = some err →
      collectCands dir (l1 ++ x :: l2) = collectCands dir (l1 ++ l2))
  ∧ (∀ (dir : List SnapDirFile) (l1 l2 : List SnapKeyWithSending)
      (x : SnapKeyWithSending) (f : SnapDirFile) (e : String)
      (cs : List Cand),
      collectCands dir l1 = .ok cs → x.isSending = true →
      findSendingFile dir x.snapKey = some f → f.openErr = none →
      f.metaErr = some e →
      collectCands dir (l1 ++ x :: l2) = .error e)
  ∧ (∀ (sm : SnapManager) (e : String),
      collectCands sm.dir (listIdleSnap sm) = .error e →
      deleteOldIdleSnaps sm = .error e) := by
  refine ⟨?_, ?_, ?_⟩
  · intro dir l1 l2 x f err hx hfind ho
    induction l1 with
    | nil =>
      simp only [List.nil_append, collectCands, hx, Bool.not_true,
        Bool.false_eq_true, if_false, hfind, ho]
    | cons y t1 ih =>
      simp only [List.cons_append, collectCands, List.append_eq, ih]
  · intro dir l1 l2 x f e cs hok hx hfind ho hm
    induction l1 generalizing cs with
    | nil =>
      simp only [List.nil_append, collectCands, hx, Bool.not_true,
        Bool.false_eq_true, if_false, hfind, ho, hm]
    | cons y t1 ih =>
      simp only [List.cons_append, collectCands]
      rw [collectCands] at hok
      by_cases hy : (!y.isSending) = true
      · rw [if_pos hy] at hok
        rw [if_pos hy]
        exact ih cs hok
      · rw [if_neg hy] at hok
        rw [if_neg hy]
        cases hfy : findSendingFile dir y.snapKey with
        | none =>
          simp only [hfy] at hok ⊢
          exact ih cs hok
        | some g =>
          simp only [hfy] at hok ⊢
          cases hgo : g.openErr with
          | some e1 =>
            simp only [hgo] at hok ⊢
            exact ih cs hok
          | none =>
            simp only [hgo] at hok ⊢
            cases hgm : g.metaErr with
            | some e1 =>
              simp only [hgm] at hok
              cases hok
            | none =>
              simp only [hgm] at hok ⊢
              cases hrest : collectCands dir t1 with
              | error e1 =>
                simp only [hrest] at hok
                cases hok
              | ok cs1 =>
                simp only [List.append_eq, ih cs1 hrest]
  · intro sm e h
    simp only [deleteOldIdleSnaps, h]

/-- C8 witness: the three amended conjuncts applied at concrete inputs: a
skipped open failure, an aborting metadata failure, and its propagation. -/
theorem evict_item_failure_behavior_witness :
    collectCands exampleOpenErr.dir
        ([] ++ (⟨⟨1, 1, 1⟩, true⟩ : SnapKeyWithSending) ::
          [(⟨⟨2, 1, 1⟩, true⟩ : SnapKeyWithSending)]) =
      collectCands exampleOpenErr.dir
        ([] ++ [(⟨⟨2, 1, 1⟩, true⟩ : SnapKeyWithSending)])
  ∧ collectCands exampleMetaErr.dir
        ([] ++ (⟨⟨1, 1, 1⟩, true⟩ : SnapKeyWithSending) :: []) =
      .error "stat failed"
  ∧ deleteOldIdleSnaps exampleMetaErr = .error "stat failed" := by
  refine ⟨?_, ?_, ?_⟩
  · exact evict_item_failure_behavior.1 exampleOpenErr.dir [] _ _
      ⟨⟨1, 1, 1⟩, true, 100, 10, some "open failed", none⟩ "open failed"
      rfl rfl rfl
  · exact evict_item_failure_behavior.2.1 exampleMetaErr.dir [] [] _
      ⟨⟨1, 1, 1⟩, true, 100, 10, none, some "stat failed"⟩ "stat failed" []
      rfl rfl rfl rfl rfl
  · exact evict_item_failure_behavior.2.2 exampleMetaErr "stat failed" rfl


theorem kvGet_kvPut_self (e : KvEngine) (key v : List Nat) :
    kvGet (kvPut e key v) key = some v := by
  induction e with
  | nil => simp [kvPut, kvGet]
  | cons p e ih =>
    obtain ⟨k, v0⟩ := p
    by_cases hk : k = key
    · subst hk
      simp [kvPut, kvGet]
    · simp [kvPut, kvGet, hk, ih]

/-- C7: on a store whose identity key is absent, BootstrapStore succeeds;
calling it again with identical arguments returns a non-nil
already-bootstrapped error and leaves the persisted state unchanged. -/
theorem bootstrapStore_second_call_fails (engines : KvEngine)
    (clusterID storeID : Nat) (h : kvGet engines storeIdentKey = none) :
    (bootstrapStore engines clusterID storeID).1 = none ∧
    (bootstrapStore (bootstrapStore engines clusterID storeID).2 clusterID
        storeID).1.isSome = true ∧
    (bootstrapStore (bootstrapStore engines clusterID storeID).2 clusterID
        storeID).2 = (bootstrapStore engines clusterID storeID).2 := by
  have h1 : bootstrapStore engines clusterID storeID =
      (none, kvPut engines storeIdentKey [clusterID, storeID]) := by
    simp [bootstrapStore, h]
  rw [h1]
  have h2 : kvGet (kvPut engines storeIdentKey [clusterID, storeID])
      storeIdentKey = some [clusterID, storeID] := kvGet_kvPut_self _ _ _
  simp [bootstrapStore, h2]

/-- C7 witness: the theorem applied at a fresh engine with
clusterID = storeID = 1. -/
theorem bootstrapStore_second_call_fails_witness :
    (bootstrapStore [] 1 1).1 = none ∧
    (bootstrapStore (bootstrapStore [] 1 1).2 1 1).1.isSome = true ∧
    (bootstrapStore (bootstrapStore [] 1 1).2 1 1).2 =
      (bootstrapStore [] 1 1).2 :=
  bootstrapStore_second_call_fails [] 1 1 rfl

end Raftstore
